import Mathlib

/-!
Shallow embedding of the spectral-estimation and resonance-peak-detection core of
the soundwave-analysis repository (file wav_to_spectrum_analyzer.py), together
with proofs about the claims of its specification.

Modelling conventions:
* Python floats are modelled as exact rationals where the code only compares,
  adds, multiplies and divides them, and as real numbers where square roots,
  logarithms and trigonometric functions occur.
* Python int(x) (truncation toward zero) is pyTrunc; numpy arrays are lists.
* Fallible code returns Except PyError; the error constructor names the Python
  exception that the corresponding operation raises.
-/

namespace Soundwave

/-- Errors raised by the Python code paths modelled here. -/
inductive PyError where
  | zeroDivisionError : PyError
  | indexError : PyError
  | overflowError : PyError
deriving DecidableEq, Repr

/-- Python int() applied to a float: truncation toward zero. -/
def pyTrunc (q : ℚ) : ℤ := if 0 ≤ q then ⌊q⌋ else -⌊-q⌋

/-- numpy mean of a list of rationals (sum divided by length; the empty list is
never passed to it on the paths the claims exercise). -/
def npMean (l : List ℚ) : ℚ := l.sum / l.length

/-- SpectrumAnalyzer.calculate_optimal_fft_length, lines 126 to 157 of
wav_to_spectrum_analyzer.py.  The Python code is
  ideal_fft_length = int(sample_rate / self.target_freq_resolution)
  actual_fft_length = min(ideal_fft_length, signal_length)
  actual_freq_resolution = sample_rate / actual_fft_length
with no parameter validation at all.  Dividing by a zero target resolution or by
a zero actual_fft_length raises ZeroDivisionError; both division sites are
modelled by explicit zero tests. -/
def calculate_optimal_fft_length (target_freq_resolution : ℚ) (signal_length : ℕ)
    (sample_rate : ℤ) : Except PyError (ℤ × ℚ) :=
  if target_freq_resolution = 0 then .error .zeroDivisionError
  else
    let ideal_fft_length : ℤ := pyTrunc ((sample_rate : ℚ) / target_freq_resolution)
    let actual_fft_length : ℤ := min ideal_fft_length (signal_length : ℤ)
    if actual_fft_length = 0 then .error .zeroDivisionError
    else .ok (actual_fft_length, (sample_rate : ℚ) / (actual_fft_length : ℚ))

/-- Modelled from the spec: the Resolution Planner as the specification words it,
with ideal_length = round(sample_rate / target_resolution) (rounding to the
nearest integer) instead of the truncation the code performs.  Used only to
compare the code against the claimed rounding behaviour. -/
def calculateOptimalFftLengthSpecRound (target_freq_resolution : ℚ) (signal_length : ℕ)
    (sample_rate : ℤ) : Except PyError (ℤ × ℚ) :=
  if target_freq_resolution = 0 then .error .zeroDivisionError
  else
    let ideal_fft_length : ℤ := round ((sample_rate : ℚ) / target_freq_resolution)
    let actual_fft_length : ℤ := min ideal_fft_length (signal_length : ℤ)
    if actual_fft_length = 0 then .error .zeroDivisionError
    else .ok (actual_fft_length, (sample_rate : ℚ) / (actual_fft_length : ℚ))

theorem pyTrunc_of_nonneg {q : ℚ} (h : 0 ≤ q) : pyTrunc q = ⌊q⌋ := by
  simp [pyTrunc, h]

theorem pyTrunc_eq_zero {q : ℚ} (h0 : 0 ≤ q) (h1 : q < 1) : pyTrunc q = 0 := by
  rw [pyTrunc_of_nonneg h0]
  exact Int.floor_eq_zero_iff.mpr ⟨h0, h1⟩

theorem pyTrunc_le {q : ℚ} (h : 0 ≤ q) : (pyTrunc q : ℚ) ≤ q := by
  rw [pyTrunc_of_nonneg h]; exact Int.floor_le q

theorem lt_pyTrunc_add_one {q : ℚ} (h : 0 ≤ q) : q < pyTrunc q + 1 := by
  rw [pyTrunc_of_nonneg h]; exact_mod_cast Int.lt_floor_add_one q

/-- C2 (amended): for signal_length at least 1, positive sample rate and positive
target resolution whose quotient truncates to at least 1, the planner returns
fft_length = min(int(sample_rate / target_resolution), signal_length), where
int is Python truncation toward zero (not rounding to nearest), and
actual_resolution = sample_rate / fft_length. -/
theorem calculate_optimal_fft_length_formula (t : ℚ) (len : ℕ) (sr : ℤ)
    (_hsr : 0 < sr) (ht : 0 < t) (hlen : 1 ≤ len) (hid : 1 ≤ pyTrunc ((sr : ℚ) / t)) :
    calculate_optimal_fft_length t len sr =
      .ok (min (pyTrunc ((sr : ℚ) / t)) (len : ℤ),
        (sr : ℚ) / ((min (pyTrunc ((sr : ℚ) / t)) (len : ℤ) : ℤ) : ℚ)) := by
  have hmin : (0 : ℤ) < min (pyTrunc ((sr : ℚ) / t)) (len : ℤ) :=
    lt_min (by omega) (by exact_mod_cast hlen)
  unfold calculate_optimal_fft_length
  simp [ht.ne', hmin.ne']

/-- Witness for the amended C2 theorem at sample_rate 3, target resolution 1/2,
signal_length 10: fft_length = min(6, 10) = 6 and resolution 3/6 = 1/2. -/
theorem calculate_optimal_fft_length_formula_witness :
    calculate_optimal_fft_length (1/2) 10 3 = .ok (6, 1/2) := by
  have h6 : pyTrunc ((3 : ℚ) / (1/2)) = 6 := by
    norm_num [pyTrunc, Int.floor_eq_iff]
  have h := calculate_optimal_fft_length_formula (1/2) 10 3 (by norm_num) (by norm_num)
    (by norm_num) (by rw [show ((3:ℤ):ℚ) = (3:ℚ) by norm_num, h6]; norm_num)
  rw [h]
  rw [show ((3:ℤ):ℚ) = (3:ℚ) by norm_num, h6]
  norm_num

/-- C2 counterexample: at sample_rate 5, target resolution 3, signal_length 10
the code truncates 5/3 to 1 and returns fft_length 1 with resolution 5, while
the claimed formula min(round(5/3), 10) = 2 (the spec-worded variant returns
fft_length 2 with resolution 5/2). -/
theorem calculate_optimal_fft_length_int_ne_round :
    calculate_optimal_fft_length 3 10 5 = .ok (1, 5) ∧
      calculateOptimalFftLengthSpecRound 3 10 5 = .ok (2, 5/2) := by
  have hf : pyTrunc ((5 : ℚ) / 3) = 1 := by norm_num [pyTrunc, Int.floor_eq_iff]
  have hr : round ((5 : ℚ) / 3) = 2 := by norm_num [round_eq, Int.floor_eq_iff]
  constructor
  · unfold calculate_optimal_fft_length
    rw [show (((5:ℤ)):ℚ) = (5:ℚ) by norm_num, hf]
    norm_num
  · unfold calculateOptimalFftLengthSpecRound
    rw [show (((5:ℤ)):ℚ) = (5:ℚ) by norm_num, hr]
    norm_num

/-- C7 (amended): the planner performs no parameter validation.  It raises
exactly when the target resolution is zero (division by zero at the int() line)
or when min(int(sample_rate/target), signal_length) is zero (division by zero
when computing the actual resolution); any other input, including negative
sample rates and negative target resolutions, yields a ResolutionPlan. -/
theorem calculate_optimal_fft_length_error_iff (t : ℚ) (len : ℕ) (sr : ℤ) :
    (∃ e, calculate_optimal_fft_length t len sr = .error e) ↔
      (t = 0 ∨ min (pyTrunc ((sr : ℚ) / t)) (len : ℤ) = 0) := by
  unfold calculate_optimal_fft_length
  by_cases ht : t = 0
  · simp [ht]
  · by_cases hm : min (pyTrunc ((sr : ℚ) / t)) (len : ℤ) = 0 <;> simp [ht, hm]

/-- C7 counterexample: for the invalid parameter sample_rate = -10 (with the
default target resolution 1/100 and signal_length 5) the planner does not fail;
it returns a plan with the negative fft_length -1000. -/
theorem calculate_optimal_fft_length_accepts_negative_rate :
    calculate_optimal_fft_length (1/100) 5 (-10) = .ok (-1000, 1/100) := by
  have hq : (((-10 : ℤ)) : ℚ) / (1/100) = -1000 := by norm_num
  have hf : pyTrunc (-1000 : ℚ) = -1000 := by
    norm_num [pyTrunc, Int.floor_eq_iff]
  unfold calculate_optimal_fft_length
  rw [hq, hf]
  norm_num

/-- C10: whenever the target resolution strictly exceeds a positive sample rate,
int(sample_rate / target) truncates to 0, the capped fft_length is 0, and the
planner raises ZeroDivisionError instead of returning a plan. -/
theorem calculate_optimal_fft_length_target_above_rate (t : ℚ) (len : ℕ) (sr : ℤ)
    (hsr : 0 < sr) (ht : (sr : ℚ) < t) :
    calculate_optimal_fft_length t len sr = .error .zeroDivisionError := by
  have hsrq : (0 : ℚ) < (sr : ℚ) := by exact_mod_cast hsr
  have ht0 : (0 : ℚ) < t := lt_trans hsrq ht
  have h1 : (sr : ℚ) / t < 1 := (div_lt_one ht0).mpr ht
  have h0 : 0 ≤ (sr : ℚ) / t := le_of_lt (div_pos hsrq ht0)
  have htr : pyTrunc ((sr : ℚ) / t) = 0 := pyTrunc_eq_zero h0 h1
  have hm : min (pyTrunc ((sr : ℚ) / t)) (len : ℤ) = 0 := by
    rw [htr]; exact min_eq_left (Int.ofNat_nonneg len)
  unfold calculate_optimal_fft_length
  simp [ht0.ne', hm]

/-- Witness for C10 at sample_rate 1, target resolution 2, signal_length 5. -/
theorem calculate_optimal_fft_length_target_above_rate_witness :
    calculate_optimal_fft_length 2 5 1 = .error .zeroDivisionError :=
  calculate_optimal_fft_length_target_above_rate 2 5 1 (by norm_num) (by norm_num)

/-! ## The Spectral Estimator (signal_to_spectrum, lines 231 to 325) -/

/-- Window kinds accepted by signal_to_spectrum; any string other than hann,
hamming and blackman selects the rectangular (all-ones) window. -/
inductive WindowType where
  | hann : WindowType
  | hamming : WindowType
  | blackman : WindowType
  | rectangular : WindowType
deriving DecidableEq, Repr

/-- Value of the numpy window of length n at position i (np.hanning, np.hamming,
np.blackman, np.ones).  The numpy definitions divide by n - 1; for n = 1 numpy
special-cases the window to the one-element array holding 1 while this model
yields the cosine at 0; that difference is unobservable because every claim
path with n = 1 fails with IndexError before the window values are used. -/
noncomputable def windowVal : WindowType → ℕ → ℕ → ℝ
  | .hann, n, i => 1/2 - 1/2 * Real.cos (2 * Real.pi * i / ((n : ℝ) - 1))
  | .hamming, n, i => 27/50 - 23/50 * Real.cos (2 * Real.pi * i / ((n : ℝ) - 1))
  | .blackman, n, i =>
      21/50 - 1/2 * Real.cos (2 * Real.pi * i / ((n : ℝ) - 1))
        + 2/25 * Real.cos (4 * Real.pi * i / ((n : ℝ) - 1))
  | .rectangular, _, _ => 1

/-- Mean of a list of reals, as np.mean computes it on the nonempty lists the
code feeds it. -/
noncomputable def realMean (l : List ℝ) : ℝ := l.sum / l.length

/-- np.fft.fftfreq(n, 1/sample_rate): entry i is i*sample_rate/n for
i up to (n-1)/2 and (i-n)*sample_rate/n (a negative frequency) beyond. -/
def fftfreq (n : ℕ) (sample_rate : ℤ) : List ℚ :=
  (List.range n).map fun i =>
    if i ≤ (n - 1) / 2 then (i : ℚ) * sample_rate / n
    else ((i : ℚ) - n) * sample_rate / n

/-- np.fft.fft: the discrete Fourier transform
X k = sum over j of x j * exp(-2 pi I j k / n). -/
noncomputable def dft (x : List ℝ) : List ℂ :=
  (List.range x.length).map fun k =>
    ∑ j ∈ Finset.range x.length,
      (x.getD j 0 : ℂ) * Complex.exp (-(2 * Real.pi * Complex.I * j * k) / x.length)

/-- The doubling step psd[1:] *= 2 (every bin except DC). -/
def doubleExceptDC : List ℝ → List ℝ
  | [] => []
  | p :: rest => p :: rest.map (· * 2)

/-- The clamping floor 1e-20 applied before the logarithm. -/
noncomputable def psdFloor : ℝ := 1 / 10 ^ 20

/-- The acoustic reference pressure 20e-6 Pa set in the analyzer constructor. -/
noncomputable def referencePressure : ℝ := 20 / 10 ^ 6

/-- SpectrumAnalyzer.signal_to_spectrum, lines 231 to 325.  Returns the
frequency axis (exact rationals) and the SPL array (reals).  The only fallible
steps are the planner call and the access frequencies[1] when computing the
frequency step df, which raises IndexError when fewer than two bins exist. -/
noncomputable def signal_to_spectrum (signal : List ℚ) (sample_rate : ℤ)
    (window_type : WindowType) (target_freq_resolution : ℚ) :
    Except PyError (List ℚ × List ℝ) :=
  let dc := signal.map (fun x => x - npMean signal)
  match calculate_optimal_fft_length target_freq_resolution dc.length sample_rate with
  | .error e => .error e
  | .ok (fft_length, _actual_freq_res) =>
    let n : ℕ := fft_length.toNat
    let padded : List ℚ :=
      if dc.length < n then dc ++ List.replicate (n - dc.length) 0 else dc.take n
    let window : List ℝ := (List.range n).map (windowVal window_type n)
    let signal_windowed : List ℝ :=
      (List.range n).map fun i => ((padded.getD i 0 : ℚ) : ℝ) * window.getD i 0
    let window_power_correction : ℝ := Real.sqrt (realMean (window.map (fun w => w ^ 2)))
    let fft_result := dft signal_windowed
    let n_positive_freqs := n / 2 + 1
    let fft_positive := fft_result.take n_positive_freqs
    let frequencies := (fftfreq n sample_rate).take n_positive_freqs
    let psd := doubleExceptDC (fft_positive.map fun z => Complex.abs z ^ 2)
    let psd_norm := psd.map fun p => p / ((n : ℝ) ^ 2 * window_power_correction ^ 2)
    let psd_safe := psd_norm.map fun p => max p psdFloor
    if frequencies.length < 2 then .error .indexError
    else
      let df : ℚ := frequencies.getD 1 0 - frequencies.getD 0 0
      let spl_db := psd_safe.map fun p =>
        20 * Real.logb 10 (Real.sqrt (p * (df : ℝ)) / referencePressure)
      .ok (frequencies, spl_db)

/-- The frequency axis returned by signal_to_spectrum is the first
fft_length/2 + 1 entries of fftfreq, whenever the planner succeeds and at least
two bins exist. -/
theorem signal_to_spectrum_freqs (signal : List ℚ) (sr : ℤ) (w : WindowType) (t : ℚ)
    (L : ℤ) (r : ℚ)
    (hp : calculate_optimal_fft_length t signal.length sr = .ok (L, r))
    (h2 : ¬ ((fftfreq L.toNat sr).take (L.toNat / 2 + 1)).length < 2) :
    (signal_to_spectrum signal sr w t).map Prod.fst =
      .ok ((fftfreq L.toNat sr).take (L.toNat / 2 + 1)) := by
  unfold signal_to_spectrum
  simp only [List.length_map, hp, h2, if_false, Except.map]

/-- C1 failing-input evaluation: for the length-4 signal [1,2,3,4] at sample
rate 44100 (default target resolution 1/100, so fft_length = 4, an even
length), the returned frequency axis is [0, 11025, -22050]: its last entry is
the negative Nyquist frequency -sample_rate/2 taken from np.fft.fftfreq, so the
axis is not ascending and the spacing of the last step is not
sample_rate/fft_length. -/
theorem signal_to_spectrum_negative_nyquist :
    (signal_to_spectrum [1, 2, 3, 4] 44100 .hann (1/100)).map Prod.fst =
        .ok [0, 11025, -22050] ∧
      ¬ List.Chain' (· < ·) ([0, 11025, -22050] : List ℚ) := by
  have h1 : (((44100 : ℤ)) : ℚ) / (1/100) = 4410000 := by norm_num
  have h2 : pyTrunc (4410000 : ℚ) = 4410000 := by norm_num [pyTrunc, Int.floor_eq_iff]
  have hp : calculate_optimal_fft_length (1/100) 4 44100 = .ok (4, 11025) := by
    unfold calculate_optimal_fft_length
    rw [h1, h2]
    norm_num
  have hfr : (fftfreq (4:ℕ) 44100).take (4 / 2 + 1) = [0, 11025, -22050] := by
    simp [fftfreq, List.range_succ]
    norm_num
  constructor
  · have := signal_to_spectrum_freqs [1, 2, 3, 4] 44100 .hann (1/100) 4 11025
      (by simpa using hp) (by rw [show ((4:ℤ)).toNat = (4:ℕ) by rfl, hfr]; norm_num)
    rw [this, show ((4:ℤ)).toNat = (4:ℕ) by rfl, hfr]
  · intro hc
    exact absurd (List.chain'_cons.mp hc).2 (by simp [List.chain'_cons]; norm_num)

/-- C9 failing-input evaluation: the constant length-2 signal [3, 3] at sample
rate 1 (default target resolution 1/100) gives fft_length = 2 and the frequency
axis [0, -1/2], so the frequency step df = frequencies[1] - frequencies[0]
multiplied under the square root of the SPL conversion is negative: numpy
evaluates sqrt(1e-20 * df) of a negative argument to NaN, and every spl_db
entry is NaN instead of the claimed floor value. -/
theorem signal_to_spectrum_constant_signal_nan :
    (signal_to_spectrum [3, 3] 1 .hann (1/100)).map Prod.fst = .ok [0, -(1/2)] ∧
      (([0, -(1/2)] : List ℚ).getD 1 0 - ([0, -(1/2)] : List ℚ).getD 0 0) < 0 := by
  have h1 : (((1 : ℤ)) : ℚ) / (1/100) = 100 := by norm_num
  have h2 : pyTrunc (100 : ℚ) = 100 := by norm_num [pyTrunc, Int.floor_eq_iff]
  have hp : calculate_optimal_fft_length (1/100) 2 1 = .ok (2, 1/2) := by
    unfold calculate_optimal_fft_length
    rw [h1, h2]
    norm_num
  have hfr : (fftfreq (2:ℕ) 1).take (2 / 2 + 1) = [0, -(1/2)] := by
    simp [fftfreq, List.range_succ]
    norm_num
  constructor
  · have := signal_to_spectrum_freqs [3, 3] 1 .hann (1/100) 2 (1/2)
      (by simpa using hp) (by rw [show ((2:ℤ)).toNat = (2:ℕ) by rfl, hfr]; norm_num)
    rw [this, show ((2:ℤ)).toNat = (2:ℕ) by rfl, hfr]
  · norm_num

/-! ## The Resonance Peak Detector (detect_resonance_peaks, lines 448 to 582)

The detector calls scipy.signal.find_peaks.  scipy evaluates, in this order:
interior local maxima (with plateau midpoints), the height filter, the distance
filter and finally the prominence filter; each stage below mirrors the
corresponding loop of scipy/signal/_peak_finding_utils.pyx.  numpy argsort is
used by scipy for the distance filter and by the analyzer for capping; its
default quicksort leaves the relative order of equal keys unspecified, and it
is modelled here by a stable insertion sort on the same key. -/

/-- A detected resonance peak: the dictionary built at lines 529 to 535. -/
structure ResonancePeak where
  index : ℕ
  center_frequency : ℚ
  peak_spl : ℚ
  prominence : ℚ
  rank : ℕ
deriving DecidableEq, Repr

/-- The statistics dictionary of lines 539 to 562.  The two standard deviations
are reals (numpy std takes a square root); every other field is exact. -/
structure DetectionStats where
  total_peaks : ℕ
  frequency_range : ℚ × ℚ
  mean_frequency : ℚ
  std_frequency : ℝ
  spl_range : ℚ × ℚ
  mean_spl : ℚ
  std_spl : ℝ
  dominant_peak : Option ResonancePeak

/-- The result dictionary of detect_resonance_peaks (the detection_parameters
entry, a verbatim echo of the inputs, is not modelled). -/
structure ResonanceDetectionResult where
  resonance_peaks : List ResonancePeak
  statistics : DetectionStats

/-- The plateau scan of scipy _local_maxima_1d:
while i_ahead < i_max and x[i_ahead] == x[i]: i_ahead += 1. -/
def plateauEnd (x : List ℚ) (v : ℚ) (ia : ℕ) : ℕ :=
  if h : ia + 1 < x.length ∧ x.getD ia 0 = v then plateauEnd x v (ia + 1) else ia
termination_by x.length - ia
decreasing_by omega

theorem le_plateauEnd (x : List ℚ) (v : ℚ) (ia : ℕ) : ia ≤ plateauEnd x v ia := by
  unfold plateauEnd
  split
  · have := le_plateauEnd x v (ia + 1)
    omega
  · exact le_refl ia
termination_by x.length - ia
decreasing_by omega

theorem plateauEnd_lt (x : List ℚ) (v : ℚ) (ia : ℕ) (h : ia < x.length) :
    plateauEnd x v ia < x.length := by
  unfold plateauEnd
  split
  · exact plateauEnd_lt x v (ia + 1) (by omega)
  · exact h
termination_by x.length - ia
decreasing_by omega

/-- The main loop of scipy _local_maxima_1d over a candidate position i:
a strict rise at i followed by a plateau of equal values ending in a strict
fall yields the plateau midpoint and the scan resumes after the plateau; in
every other case (no rise, or a plateau that does not fall on its right) the
scan moves one position forward, exactly as in the scipy loop whose two
non-peak paths both advance i by one. -/
def localMaximaAux (x : List ℚ) (i : ℕ) : List ℕ :=
  if h : i + 1 < x.length then
    if x.getD (i - 1) 0 < x.getD i 0 ∧
        x.getD (plateauEnd x (x.getD i 0) (i + 1)) 0 < x.getD i 0 then
      (i + (plateauEnd x (x.getD i 0) (i + 1) - 1)) / 2 ::
        localMaximaAux x (plateauEnd x (x.getD i 0) (i + 1) + 1)
    else localMaximaAux x (i + 1)
  else []
termination_by x.length - i
decreasing_by
  · have := le_plateauEnd x (x.getD i 0) (i + 1)
    omega
  · omega

/-- scipy _local_maxima_1d: interior local maxima of x, as plateau midpoints. -/
def localMaxima (x : List ℚ) : List ℕ := localMaximaAux x 1

/-- Every position returned by the scan lies at or beyond the scan start and is
interior to the array. -/
theorem localMaximaAux_mem (x : List ℚ) (i : ℕ) :
    ∀ j ∈ localMaximaAux x i, i ≤ j ∧ j + 1 < x.length := by
  induction i using localMaximaAux.induct x with
  | case1 i h hpk ih =>
    intro j hj
    rw [localMaximaAux, dif_pos h, if_pos hpk] at hj
    have h1 := le_plateauEnd x (x.getD i 0) (i + 1)
    have h2 := plateauEnd_lt x (x.getD i 0) (i + 1) (by omega)
    rcases List.mem_cons.mp hj with hEq | hMem
    · subst hEq
      omega
    · have := ih j hMem
      omega
  | case2 i h hpk ih =>
    intro j hj
    rw [localMaximaAux, dif_pos h, if_neg hpk] at hj
    have := ih j hj
    omega
  | case3 i h =>
    intro j hj
    rw [localMaximaAux, dif_neg h] at hj
    simp at hj

/-- The scan returns strictly increasing positions. -/
theorem localMaximaAux_pairwise (x : List ℚ) (i : ℕ) :
    List.Pairwise (· < ·) (localMaximaAux x i) := by
  induction i using localMaximaAux.induct x with
  | case1 i h hpk ih =>
    rw [localMaximaAux, dif_pos h, if_pos hpk]
    refine List.pairwise_cons.mpr ⟨?_, ih⟩
    intro j hj
    have hmem := localMaximaAux_mem x (plateauEnd x (x.getD i 0) (i + 1) + 1) j hj
    have h1 := le_plateauEnd x (x.getD i 0) (i + 1)
    omega
  | case2 i h hpk ih =>
    rw [localMaximaAux, dif_pos h, if_neg hpk]
    exact ih
  | case3 i h =>
    rw [localMaximaAux, dif_neg h]
    exact List.Pairwise.nil

theorem localMaxima_mem (x : List ℚ) : ∀ j ∈ localMaxima x, 1 ≤ j ∧ j + 1 < x.length :=
  fun j hj => localMaximaAux_mem x 1 j hj

theorem localMaxima_pairwise (x : List ℚ) : List.Pairwise (· < ·) (localMaxima x) :=
  localMaximaAux_pairwise x 1

/-- np.median: sort, then take the middle element (odd length) or the average
of the two middle elements (even length). -/
def npMedian (l : List ℚ) : ℚ :=
  let s := List.insertionSort (· ≤ ·) l
  if l.length % 2 = 1 then s.getD (l.length / 2) 0
  else (s.getD (l.length / 2 - 1) 0 + s.getD (l.length / 2) 0) / 2

/-- Population variance, the square of np.std. -/
def npVariance (l : List ℚ) : ℚ := npMean (l.map fun x => (x - npMean l) ^ 2)

/-- Decidable test for v at least npMedian spl + 1.5 * np.std spl, the
automatic min_height of line 493.  Since the standard deviation is an
irrational square root, the comparison is phrased through squares; the lemma
autoHeightPass_iff shows it equals the real comparison the code performs. -/
def autoHeightPass (spl : List ℚ) (v : ℚ) : Bool :=
  decide (npMedian spl ≤ v ∧ 9/4 * npVariance spl ≤ (v - npMedian spl) ^ 2)

/-- The height filter keep-condition of scipy find_peaks: the peak value is at
least min_height, where a missing min_height is computed automatically as
median + 1.5 * std. -/
def heightPass (spl : List ℚ) (mh : Option ℚ) (v : ℚ) : Bool :=
  match mh with
  | some h => decide (h ≤ v)
  | none => autoHeightPass spl v

/-- scipy _select_by_property applied to the peak heights. -/
def selectByHeight (x : List ℚ) (mh : Option ℚ) (peaks : List ℕ) : List ℕ :=
  peaks.filter fun i => heightPass x mh (x.getD i 0)

/-- Stable ascending argsort of a list of values (numpy argsort; tie order of
the numpy quicksort is unspecified and modelled as stable). -/
def argsortAsc (vals : List ℚ) : List ℕ :=
  List.insertionSort (fun a b => vals.getD a 0 ≤ vals.getD b 0) (List.range vals.length)

/-- One clearing sweep of scipy _select_by_peak_distance: after position j is
processed, every other position whose peak lies strictly closer than d samples
is discarded.  The scipy loops walk outward from j and stop at the first peak
at distance at least d; because the peak array is ascending the cleared set is
exactly the set written here.  The keep array is modelled by its
characteristic function. -/
def clearNear (peaks : List ℕ) (d j : ℕ) (keep : ℕ → Bool) : ℕ → Bool :=
  fun k => if k ≠ j ∧ Nat.dist (peaks.getD k 0) (peaks.getD j 0) < d then false else keep k

/-- The processing loop of scipy _select_by_peak_distance: positions in order
of decreasing priority; a position still kept clears its neighbourhood. -/
def spdProcess (peaks : List ℕ) (d : ℕ) : List ℕ → (ℕ → Bool) → (ℕ → Bool)
  | [], keep => keep
  | j :: rest, keep =>
      spdProcess peaks d rest (if keep j then clearNear peaks d j keep else keep)

/-- scipy _select_by_peak_distance: highest-priority peaks are processed first
and suppress all surviving peaks closer than d samples. -/
def selectByPeakDistance (peaks : List ℕ) (priority : List ℚ) (d : ℕ) : List ℕ :=
  let keep := spdProcess peaks d (argsortAsc priority).reverse fun _ => true
  (peaks.enum.filter fun ka => keep ka.1).map Prod.snd

/-- Once a position is discarded by the distance loop it stays discarded:
processing only turns keep entries to false. -/
theorem spdProcess_mono (peaks : List ℕ) (d : ℕ) (order : List ℕ) :
    ∀ (keep : ℕ → Bool) (k : ℕ), spdProcess peaks d order keep k = true → keep k = true := by
  induction order with
  | nil => exact fun _ _ h => h
  | cons j rest ih =>
    intro keep k h
    have hstep := ih (if keep j then clearNear peaks d j keep else keep) k h
    by_cases hkj : keep j = true
    · rw [if_pos hkj] at hstep
      unfold clearNear at hstep
      by_cases hc : k ≠ j ∧ Nat.dist (peaks.getD k 0) (peaks.getD j 0) < d
      · rw [if_pos hc] at hstep
        exact absurd hstep (by simp)
      · rwa [if_neg hc] at hstep
    · rwa [if_neg hkj] at hstep

/-- If position j is processed and position k lies strictly closer than d to
it, the two cannot both survive the distance loop. -/
theorem spdProcess_clears (peaks : List ℕ) (d : ℕ) (order : List ℕ) (j k : ℕ)
    (hj : j ∈ order) (hk : k ≠ j)
    (hd : Nat.dist (peaks.getD k 0) (peaks.getD j 0) < d) :
    ∀ keep : ℕ → Bool,
      ¬(spdProcess peaks d order keep j = true ∧ spdProcess peaks d order keep k = true) := by
  induction order with
  | nil => simp at hj
  | cons a rest ih =>
    intro keep hboth
    obtain ⟨h1, h2⟩ := hboth
    simp only [spdProcess] at h1 h2
    rcases List.mem_cons.mp hj with rfl | hjr
    · by_cases hkj : keep j = true
      · have hk1 : clearNear peaks d j keep k = false := by
          unfold clearNear
          rw [if_pos ⟨hk, hd⟩]
        have h2m := spdProcess_mono peaks d rest _ k h2
        rw [if_pos hkj] at h2m
        rw [hk1] at h2m
        exact absurd h2m (by simp)
      · have h1m := spdProcess_mono peaks d rest _ j h1
        rw [if_neg hkj] at h1m
        exact hkj h1m
    · exact ih hjr _ ⟨h1, h2⟩

/-- Unpacking membership in the masked peak list. -/
theorem mem_maskFilter {peaks : List ℕ} {keep : ℕ → Bool} {a : ℕ}
    (h : a ∈ (peaks.enum.filter fun ka => keep ka.1).map Prod.snd) :
    ∃ kpos, kpos < peaks.length ∧ peaks.getD kpos 0 = a ∧ keep kpos = true := by
  obtain ⟨⟨kpos, a0⟩, hmem, heq⟩ := List.mem_map.mp h
  rw [List.mem_filter] at hmem
  obtain ⟨henum, hkeep⟩ := hmem
  obtain ⟨hlt, haeq⟩ := List.mem_enum henum
  refine ⟨kpos, hlt, ?_, hkeep⟩
  have hval : peaks[kpos] = a := by rw [← haeq]; exact heq
  simp [List.getD_eq_getElem?_getD, List.getElem?_eq_getElem hlt, hval]

/-- The surviving peaks form a sublist of the input peaks. -/
theorem selectByPeakDistance_sublist (peaks : List ℕ) (priority : List ℚ) (d : ℕ) :
    (selectByPeakDistance peaks priority d).Sublist peaks := by
  unfold selectByPeakDistance
  have h1 := (@List.filter_sublist _ (fun ka =>
    spdProcess peaks d (argsortAsc priority).reverse (fun _ => true) ka.1) peaks.enum).map Prod.snd
  rwa [List.enum_map_snd] at h1

/-- Any two distinct survivors of the distance filter are at least d apart,
provided the priority list covers the peak list (scipy passes x[peaks]). -/
theorem selectByPeakDistance_dist (peaks : List ℕ) (priority : List ℚ) (d : ℕ)
    (hlen : peaks.length ≤ priority.length) :
    ∀ a ∈ selectByPeakDistance peaks priority d,
      ∀ b ∈ selectByPeakDistance peaks priority d, a ≠ b → d ≤ Nat.dist a b := by
  intro a ha b hb hab
  simp only [selectByPeakDistance] at ha hb
  obtain ⟨ka, hkalt, hgetA, hkeepA⟩ := mem_maskFilter ha
  obtain ⟨kb, hkblt, hgetB, hkeepB⟩ := mem_maskFilter hb
  have hkanb : kb ≠ ka := fun h => hab (by rw [← hgetA, ← hgetB, h])
  have hmemorder : ka ∈ (argsortAsc priority).reverse := by
    rw [List.mem_reverse]
    unfold argsortAsc
    rw [(List.perm_insertionSort _ _).mem_iff, List.mem_range]
    omega
  by_contra hlt
  push_neg at hlt
  exact spdProcess_clears peaks d (argsortAsc priority).reverse ka kb hmemorder hkanb
    (by rw [hgetA, hgetB, Nat.dist_comm]; omega) (fun _ => true) ⟨hkeepA, hkeepB⟩

/-- The left scan of scipy _peak_prominences: walk left from the peak while the
values do not exceed the peak value, recording the minimum seen. -/
def scanLeftMin (x : List ℚ) (v : ℚ) : ℕ → ℚ → ℚ
  | 0, cur => if x.getD 0 0 ≤ v then min cur (x.getD 0 0) else cur
  | i + 1, cur =>
      if x.getD (i + 1) 0 ≤ v then scanLeftMin x v i (min cur (x.getD (i + 1) 0)) else cur

/-- The right scan of scipy _peak_prominences, symmetric to the left scan. -/
def scanRightMin (x : List ℚ) (v : ℚ) (i : ℕ) (cur : ℚ) : ℚ :=
  if _h : i < x.length then
    if x.getD i 0 ≤ v then scanRightMin x v (i + 1) (min cur (x.getD i 0)) else cur
  else cur
termination_by x.length - i
decreasing_by omega

/-- scipy _peak_prominences for one peak with the default full window:
the peak value minus the higher of the two scan minima. -/
def promOf (x : List ℚ) (peak : ℕ) : ℚ :=
  let v := x.getD peak 0
  v - max (scanLeftMin x v peak v) (scanRightMin x v peak v)

/-- scipy.signal.find_peaks as called at lines 496 to 501, with the height,
distance and prominence keyword arguments: local maxima, then the height
filter, then the distance filter, then the prominence filter; returns the
surviving peak positions paired with their prominences. -/
def find_peaks (x : List ℚ) (mh : Option ℚ) (mp : ℚ) (d : ℕ) : List (ℕ × ℚ) :=
  let p1 := localMaxima x
  let p2 := selectByHeight x mh p1
  let p3 := selectByPeakDistance p2 (p2.map (x.getD · 0)) d
  (p3.zip (p3.map (promOf x))).filter fun ip => decide (mp ≤ ip.2)

theorem find_peaks_fst_sublist (x : List ℚ) (mh : Option ℚ) (mp : ℚ) (d : ℕ) :
    ((find_peaks x mh mp d).map Prod.fst).Sublist (localMaxima x) := by
  unfold find_peaks
  have h1 := (@List.filter_sublist _ (fun ip => decide (mp ≤ ip.2))
    ((selectByPeakDistance (selectByHeight x mh (localMaxima x))
        ((selectByHeight x mh (localMaxima x)).map (x.getD · 0)) d).zip
      ((selectByPeakDistance (selectByHeight x mh (localMaxima x))
        ((selectByHeight x mh (localMaxima x)).map (x.getD · 0)) d).map (promOf x)))).map
    Prod.fst
  rw [List.map_fst_zip _ _ (by rw [List.length_map])] at h1
  exact (h1.trans (selectByPeakDistance_sublist _ _ _)).trans (List.filter_sublist _)

/-- Peak positions returned by find_peaks are interior to the array. -/
theorem find_peaks_mem_fst (x : List ℚ) (mh : Option ℚ) (mp : ℚ) (d : ℕ) :
    ∀ ip ∈ find_peaks x mh mp d, 1 ≤ ip.1 ∧ ip.1 + 1 < x.length := fun ip hip =>
  localMaxima_mem x ip.1
    ((find_peaks_fst_sublist x mh mp d).subset (List.mem_map_of_mem Prod.fst hip))

/-- Peak positions returned by find_peaks are strictly increasing. -/
theorem find_peaks_fst_pairwise (x : List ℚ) (mh : Option ℚ) (mp : ℚ) (d : ℕ) :
    List.Pairwise (· < ·) ((find_peaks x mh mp d).map Prod.fst) :=
  (localMaxima_pairwise x).sublist (find_peaks_fst_sublist x mh mp d)

/-- Distinct peaks returned by find_peaks are at least d positions apart. -/
theorem find_peaks_dist (x : List ℚ) (mh : Option ℚ) (mp : ℚ) (d : ℕ) :
    ∀ a ∈ find_peaks x mh mp d, ∀ b ∈ find_peaks x mh mp d,
      a.1 ≠ b.1 → d ≤ Nat.dist a.1 b.1 := by
  intro a ha b hb hne
  have hmem : ∀ c ∈ find_peaks x mh mp d,
      c.1 ∈ selectByPeakDistance (selectByHeight x mh (localMaxima x))
        ((selectByHeight x mh (localMaxima x)).map (x.getD · 0)) d := by
    intro c hc
    unfold find_peaks at hc
    have hz := (List.mem_filter.mp hc).1
    have := List.mem_map_of_mem Prod.fst hz
    rwa [List.map_fst_zip _ _ (by rw [List.length_map])] at this
  exact selectByPeakDistance_dist _ _ d (by rw [List.length_map]) a.1 (hmem a ha)
    b.1 (hmem b hb) hne

/-- The number of peaks surviving find_peaks does not increase when the
prominence threshold grows (with everything else fixed): the stages before the
prominence filter do not depend on it. -/
theorem find_peaks_length_antitone (x : List ℚ) (mh : Option ℚ) (d : ℕ) {p1 p2 : ℚ}
    (hp : p1 ≤ p2) :
    (find_peaks x mh p2 d).length ≤ (find_peaks x mh p1 d).length := by
  unfold find_peaks
  rw [← List.countP_eq_length_filter, ← List.countP_eq_length_filter]
  refine List.countP_mono_left ?_
  intro ip _ h
  rw [decide_eq_true_eq] at h ⊢
  exact le_trans hp h

instance : IsTotal (ℕ × ℚ) (fun a b => a.2 ≤ b.2) := ⟨fun a b => le_total a.2 b.2⟩

instance : IsTrans (ℕ × ℚ) (fun a b => a.2 ≤ b.2) := ⟨fun _ _ _ => le_trans⟩

instance : IsTotal (ℕ × ℚ) (fun a b => a.1 ≤ b.1) := ⟨fun a b => le_total a.1 b.1⟩

instance : IsTrans (ℕ × ℚ) (fun a b => a.1 ≤ b.1) := ⟨fun _ _ _ => le_trans⟩

/-- np.argsort(prominences)[::-1] applied to the peak/prominence pairs:
stable ascending sort by prominence, then reversal. -/
def sortByPromDesc (l : List (ℕ × ℚ)) : List (ℕ × ℚ) :=
  (List.insertionSort (fun a b : ℕ × ℚ => a.2 ≤ b.2) l).reverse

/-- np.argsort(peak_indices) applied to the pairs: ascending sort by position. -/
def sortByIdxAsc (l : List (ℕ × ℚ)) : List (ℕ × ℚ) :=
  List.insertionSort (fun a b : ℕ × ℚ => a.1 ≤ b.1) l

/-- The capping block of lines 503 to 515: when more peaks survive than
max_peaks, keep the max_peaks most prominent ones and re-sort them by
position. -/
def capPeaks (max_peaks : ℕ) (l : List (ℕ × ℚ)) : List (ℕ × ℚ) :=
  if max_peaks < l.length then sortByIdxAsc ((sortByPromDesc l).take max_peaks) else l

theorem sortByPromDesc_perm (l : List (ℕ × ℚ)) : (sortByPromDesc l).Perm l :=
  (List.reverse_perm _).trans (List.perm_insertionSort _ l)

theorem sortByPromDesc_sorted (l : List (ℕ × ℚ)) :
    List.Pairwise (fun u v : ℕ × ℚ => v.2 ≤ u.2) (sortByPromDesc l) := by
  unfold sortByPromDesc
  rw [List.pairwise_reverse]
  exact List.sorted_insertionSort _ l

theorem sortByIdxAsc_perm (l : List (ℕ × ℚ)) : (sortByIdxAsc l).Perm l :=
  List.perm_insertionSort _ l

theorem capPeaks_length (cap : ℕ) (l : List (ℕ × ℚ)) :
    (capPeaks cap l).length = min cap l.length := by
  unfold capPeaks sortByIdxAsc sortByPromDesc
  split
  case isTrue h =>
    rw [List.length_insertionSort, List.length_take, List.length_reverse,
      List.length_insertionSort]
  case isFalse h => omega

theorem capPeaks_subset (cap : ℕ) (l : List (ℕ × ℚ)) : ∀ a ∈ capPeaks cap l, a ∈ l := by
  unfold capPeaks
  split
  · intro a ha
    have h1 := (sortByIdxAsc_perm _).mem_iff.mp ha
    exact (sortByPromDesc_perm l).subset (List.take_subset _ _ h1)
  · exact fun a ha => ha

/-- When capping is active, every retained pair has a prominence at least that
of every pair left out. -/
theorem capPeaks_topk (cap : ℕ) (l : List (ℕ × ℚ)) :
    ∀ a ∈ capPeaks cap l, ∀ b ∈ l, b.1 ∉ (capPeaks cap l).map Prod.fst → b.2 ≤ a.2 := by
  unfold capPeaks
  split
  case isTrue hlt =>
    intro a ha b hb hbnot
    have hsp := sortByPromDesc_sorted l
    have hdecomp := List.take_append_drop cap (sortByPromDesc l)
    have hcross : ∀ u ∈ (sortByPromDesc l).take cap,
        ∀ v ∈ (sortByPromDesc l).drop cap, v.2 ≤ u.2 :=
      (List.pairwise_append.mp (by rw [hdecomp]; exact hsp)).2.2
    have hatake : a ∈ (sortByPromDesc l).take cap := (sortByIdxAsc_perm _).mem_iff.mp ha
    have hbs : b ∈ sortByPromDesc l := (sortByPromDesc_perm l).mem_iff.mpr hb
    have hsplit : b ∈ (sortByPromDesc l).take cap ∨ b ∈ (sortByPromDesc l).drop cap := by
      rw [← List.mem_append, hdecomp]
      exact hbs
    rcases hsplit with hbt | hbd
    · exact absurd (((sortByIdxAsc_perm ((sortByPromDesc l).take cap)).map
        Prod.fst).mem_iff.mpr (List.mem_map_of_mem Prod.fst hbt)) hbnot
    · exact hcross a hatake b hbd
  case isFalse hge =>
    intro a ha b hb hbnot
    exact absurd (List.mem_map_of_mem Prod.fst hb) hbnot

/-- Capping preserves strictly increasing peak positions (re-sorting by
position after the prominence selection). -/
theorem capPeaks_fst_pairwise (cap : ℕ) (l : List (ℕ × ℚ))
    (hpw : List.Pairwise (· < ·) (l.map Prod.fst)) :
    List.Pairwise (· < ·) ((capPeaks cap l).map Prod.fst) := by
  unfold capPeaks
  split
  case isTrue hlt =>
    have hnl : (l.map Prod.fst).Nodup := hpw.imp ne_of_lt
    have h1 : ((sortByPromDesc l).map Prod.fst).Nodup :=
      ((sortByPromDesc_perm l).map Prod.fst).nodup_iff.mpr hnl
    have h2 : (((sortByPromDesc l).take cap).map Prod.fst).Nodup :=
      ((List.take_sublist cap _).map Prod.fst).nodup h1
    have hnd : ((sortByIdxAsc ((sortByPromDesc l).take cap)).map Prod.fst).Nodup :=
      ((sortByIdxAsc_perm _).map Prod.fst).nodup_iff.mpr h2
    have hsorted : List.Pairwise (fun a b : ℕ × ℚ => a.1 ≤ b.1)
        (sortByIdxAsc ((sortByPromDesc l).take cap)) := List.sorted_insertionSort _ _
    have hle : List.Pairwise (· ≤ ·)
        ((sortByIdxAsc ((sortByPromDesc l).take cap)).map Prod.fst) :=
      List.pairwise_map.mpr hsorted
    exact (hle.and hnd).imp fun h => lt_of_le_of_ne h.1 h.2
  case isFalse => exact hpw

/-- Python min over a nonempty list. -/
def listMin : List ℚ → ℚ
  | [] => 0
  | h :: t => t.foldl min h

/-- Python max over a nonempty list. -/
def listMax : List ℚ → ℚ
  | [] => 0
  | h :: t => t.foldl max h

/-- The peak dictionaries of lines 518 to 535: rank is the 1-based position in
the final (position-sorted) order. -/
def buildPeaks (freqs spl : List ℚ) (pairs : List (ℕ × ℚ)) : List ResonancePeak :=
  pairs.enum.map fun ip =>
    { index := ip.2.1
      center_frequency := freqs.getD ip.2.1 0
      peak_spl := spl.getD ip.2.1 0
      prominence := ip.2.2
      rank := ip.1 + 1 }

/-- The statistics block of lines 538 to 562.  resonance_peaks[np.argmax(spls)]
(the first peak of maximal peak_spl) is List.argmax, which also prefers the
earliest maximal element. -/
noncomputable def mkStats (peaks : List ResonancePeak) : DetectionStats :=
  if peaks.isEmpty then
    { total_peaks := 0, frequency_range := (0, 0), mean_frequency := 0,
      std_frequency := 0, spl_range := (0, 0), mean_spl := 0, std_spl := 0,
      dominant_peak := none }
  else
    let cfs := peaks.map (·.center_frequency)
    let spls := peaks.map (·.peak_spl)
    { total_peaks := peaks.length
      frequency_range := (listMin cfs, listMax cfs)
      mean_frequency := npMean cfs
      std_frequency := Real.sqrt (npVariance cfs)
      spl_range := (listMin spls, listMax spls)
      mean_spl := npMean spls
      std_spl := Real.sqrt (npVariance spls)
      dominant_peak := peaks.argmax (·.peak_spl) }

/-- Line 488: min_distance_idx = max(1, int(min_distance / freq_resolution)),
converting the Hz distance to an index count by truncation toward zero. -/
def minDistanceIdx (min_distance freq_resolution : ℚ) : ℕ :=
  (max 1 (pyTrunc (min_distance / freq_resolution))).toNat

/-- The peak/prominence pair list the detector caps and converts to peak
records: find_peaks on spl_db with the index distance derived from
freq_resolution = frequencies[1] - frequencies[0], followed by the capping
block. -/
def detectCapped (frequencies spl_db : List ℚ) (min_prominence min_distance : ℚ)
    (min_height : Option ℚ) (max_peaks : ℕ) : List (ℕ × ℚ) :=
  capPeaks max_peaks (find_peaks spl_db min_height min_prominence
    (minDistanceIdx min_distance (frequencies.getD 1 0 - frequencies.getD 0 0)))

/-- SpectrumAnalyzer.detect_resonance_peaks, lines 448 to 582.  The fallible
steps, in evaluation order: frequencies[1] raises IndexError when fewer than
two bins exist; int(min_distance / freq_resolution) raises OverflowError (or
ValueError) when the resolution is zero, because the float division yields an
infinity or NaN; and frequencies[peak_idx] raises IndexError when a detected
peak position lies beyond the frequencies array, which can happen only when
spl_db is longer than frequencies. -/
noncomputable def detect_resonance_peaks (frequencies spl_db : List ℚ)
    (min_prominence min_distance : ℚ) (min_height : Option ℚ) (max_peaks : ℕ) :
    Except PyError ResonanceDetectionResult :=
  if frequencies.length < 2 then .error .indexError
  else if frequencies.getD 1 0 - frequencies.getD 0 0 = 0 then .error .overflowError
  else if (detectCapped frequencies spl_db min_prominence min_distance min_height
      max_peaks).all (fun p => decide (p.1 < frequencies.length)) then
    .ok { resonance_peaks := buildPeaks frequencies spl_db
            (detectCapped frequencies spl_db min_prominence min_distance min_height
              max_peaks)
          statistics := mkStats (buildPeaks frequencies spl_db
            (detectCapped frequencies spl_db min_prominence min_distance min_height
              max_peaks)) }
  else .error .indexError

/-- The peak list of the detector, the part every capping, distance and
monotonicity claim is about: defined so that concrete runs avoid the real
valued statistics fields. -/
noncomputable def detectPeaks (frequencies spl_db : List ℚ)
    (min_prominence min_distance : ℚ) (min_height : Option ℚ) (max_peaks : ℕ) :
    Option (List ResonancePeak) :=
  (detect_resonance_peaks frequencies spl_db min_prominence min_distance
    min_height max_peaks).toOption.map (·.resonance_peaks)

theorem buildPeaks_length (freqs spl : List ℚ) (pairs : List (ℕ × ℚ)) :
    (buildPeaks freqs spl pairs).length = pairs.length := by
  unfold buildPeaks
  rw [List.length_map, List.enum_length]

theorem buildPeaks_rank (freqs spl : List ℚ) (pairs : List (ℕ × ℚ)) (i : ℕ)
    (hi : i < (buildPeaks freqs spl pairs).length) :
    ((buildPeaks freqs spl pairs).get ⟨i, hi⟩).rank = i + 1 := by
  unfold buildPeaks at hi ⊢
  rw [List.get_eq_getElem, List.getElem_map, List.getElem_enum]

theorem buildPeaks_map_index (freqs spl : List ℚ) (pairs : List (ℕ × ℚ)) :
    (buildPeaks freqs spl pairs).map (·.index) = pairs.map Prod.fst := by
  unfold buildPeaks
  rw [List.map_map,
    show ((fun p : ResonancePeak => p.index) ∘ fun ip : ℕ × (ℕ × ℚ) =>
      ({ index := ip.2.1, center_frequency := freqs.getD ip.2.1 0,
         peak_spl := spl.getD ip.2.1 0, prominence := ip.2.2,
         rank := ip.1 + 1 } : ResonancePeak)) =
      (Prod.fst ∘ (Prod.snd : ℕ × (ℕ × ℚ) → ℕ × ℚ)) from rfl,
    ← List.map_map, List.enum_map_snd]

theorem buildPeaks_mem (freqs spl : List ℚ) (pairs : List (ℕ × ℚ)) :
    ∀ p ∈ buildPeaks freqs spl pairs,
      (p.index, p.prominence) ∈ pairs ∧ p.center_frequency = freqs.getD p.index 0 ∧
        p.peak_spl = spl.getD p.index 0 := by
  intro p hp
  unfold buildPeaks at hp
  obtain ⟨⟨i, ip⟩, hmem, heq⟩ := List.mem_map.mp hp
  obtain ⟨hlt, hieq⟩ := List.mem_enum hmem
  have hips : ip ∈ pairs := by
    rw [hieq]
    exact List.getElem_mem hlt
  subst heq
  exact ⟨by simpa using hips, rfl, rfl⟩

/-- Modelled from the spec: the index-distance threshold as the specification
words it, max(1, round(min_distance / actual_resolution)) with rounding to the
nearest integer rather than truncation. -/
def minDistanceIdxSpecRound (min_distance freq_resolution : ℚ) : ℕ :=
  (max 1 (round (min_distance / freq_resolution))).toNat

/-- Modelled from the spec: the capped pair list of the detector variant whose
index-distance threshold uses rounding, for comparison with detectCapped. -/
def detectCappedSpecRound (frequencies spl_db : List ℚ)
    (min_prominence min_distance : ℚ) (min_height : Option ℚ) (max_peaks : ℕ) :
    List (ℕ × ℚ) :=
  capPeaks max_peaks (find_peaks spl_db min_height min_prominence
    (minDistanceIdxSpecRound min_distance
      (frequencies.getD 1 0 - frequencies.getD 0 0)))

/-- Modelled from the spec: the detector with the rounded index-distance
threshold in place of the int() truncation the code performs.  Only the peak
list is produced, for comparison with detectPeaks. -/
noncomputable def detectPeaksSpecRound (frequencies spl_db : List ℚ)
    (min_prominence min_distance : ℚ) (min_height : Option ℚ) (max_peaks : ℕ) :
    Option (List ResonancePeak) :=
  if frequencies.length < 2 then none
  else if frequencies.getD 1 0 - frequencies.getD 0 0 = 0 then none
  else if (detectCappedSpecRound frequencies spl_db min_prominence min_distance
      min_height max_peaks).all (fun p => decide (p.1 < frequencies.length)) then
    some (buildPeaks frequencies spl_db (detectCappedSpecRound frequencies spl_db
      min_prominence min_distance min_height max_peaks))
  else none

/-- Characterization of a successful run of the detector. -/
theorem detect_resonance_peaks_ok_iff (freqs spl : List ℚ) (mp md : ℚ) (mh : Option ℚ)
    (cap : ℕ) (r : ResonanceDetectionResult) :
    detect_resonance_peaks freqs spl mp md mh cap = .ok r ↔
      ¬freqs.length < 2 ∧ freqs.getD 1 0 - freqs.getD 0 0 ≠ 0 ∧
        (detectCapped freqs spl mp md mh cap).all (fun p => decide (p.1 < freqs.length)) = true ∧
        r = { resonance_peaks := buildPeaks freqs spl (detectCapped freqs spl mp md mh cap)
              statistics :=
                mkStats (buildPeaks freqs spl (detectCapped freqs spl mp md mh cap)) } := by
  unfold detect_resonance_peaks
  by_cases h1 : freqs.length < 2
  · rw [if_pos h1]
    exact iff_of_false (by simp) fun hc => hc.1 h1
  · rw [if_neg h1]
    by_cases h2 : freqs.getD 1 0 - freqs.getD 0 0 = 0
    · rw [if_pos h2]
      exact iff_of_false (by simp) fun hc => hc.2.1 h2
    · rw [if_neg h2]
      by_cases h3 : (detectCapped freqs spl mp md mh cap).all
          (fun p => decide (p.1 < freqs.length)) = true
      · rw [if_pos h3]
        constructor
        · intro h
          injection h with h
          exact ⟨h1, h2, h3, h.symm⟩
        · rintro ⟨_, _, _, rfl⟩
          rfl
      · rw [if_neg h3]
        exact iff_of_false (by simp) fun hc => h3 hc.2.2.1

/-- Characterization of the peak list of a successful run. -/
theorem detectPeaks_some_iff (freqs spl : List ℚ) (mp md : ℚ) (mh : Option ℚ)
    (cap : ℕ) (l : List ResonancePeak) :
    detectPeaks freqs spl mp md mh cap = some l ↔
      ¬freqs.length < 2 ∧ freqs.getD 1 0 - freqs.getD 0 0 ≠ 0 ∧
        (detectCapped freqs spl mp md mh cap).all (fun p => decide (p.1 < freqs.length)) = true ∧
        l = buildPeaks freqs spl (detectCapped freqs spl mp md mh cap) := by
  unfold detectPeaks
  constructor
  · intro h
    cases hd : detect_resonance_peaks freqs spl mp md mh cap with
    | error e =>
      rw [hd] at h
      simp [Except.toOption] at h
    | ok r =>
      rw [hd] at h
      have h' : r.resonance_peaks = l := by simpa [Except.toOption] using h
      obtain ⟨ha, hb, hc, hr⟩ := (detect_resonance_peaks_ok_iff freqs spl mp md mh cap r).mp hd
      refine ⟨ha, hb, hc, ?_⟩
      rw [← h', hr]
  · rintro ⟨ha, hb, hc, hl⟩
    have hok := (detect_resonance_peaks_ok_iff freqs spl mp md mh cap
      { resonance_peaks := buildPeaks freqs spl (detectCapped freqs spl mp md mh cap)
        statistics :=
          mkStats (buildPeaks freqs spl (detectCapped freqs spl mp md mh cap)) }).mpr
      ⟨ha, hb, hc, rfl⟩
    rw [hok]
    simp [Except.toOption, hl]

/-! ## Step equations for evaluating the scipy scans on concrete inputs -/

theorem plateauEnd_eq_stop {x : List ℚ} {v : ℚ} {ia : ℕ}
    (h : ¬(ia + 1 < x.length ∧ x.getD ia 0 = v)) : plateauEnd x v ia = ia := by
  rw [plateauEnd, dif_neg h]

theorem localMaximaAux_eq_peak {x : List ℚ} {i ia : ℕ} (h : i + 1 < x.length)
    (hpe : plateauEnd x (x.getD i 0) (i + 1) = ia)
    (hc : x.getD (i - 1) 0 < x.getD i 0 ∧ x.getD ia 0 < x.getD i 0) :
    localMaximaAux x i = (i + (ia - 1)) / 2 :: localMaximaAux x (ia + 1) := by
  rw [localMaximaAux, dif_pos h, if_pos (by rw [hpe]; exact hc), hpe]

theorem localMaximaAux_eq_skip {x : List ℚ} {i : ℕ} (h : i + 1 < x.length)
    (hc : ¬(x.getD (i - 1) 0 < x.getD i 0 ∧
      x.getD (plateauEnd x (x.getD i 0) (i + 1)) 0 < x.getD i 0)) :
    localMaximaAux x i = localMaximaAux x (i + 1) := by
  rw [localMaximaAux, dif_pos h, if_neg hc]

theorem localMaximaAux_eq_nil {x : List ℚ} {i : ℕ} (h : ¬i + 1 < x.length) :
    localMaximaAux x i = [] := by
  rw [localMaximaAux, dif_neg h]

/-! ## Evaluation of the pipeline on the two-peak input used by the witnesses

The sound pressure array [0, 0, 5, 0, 4, 0, 0] over the uniform frequency axis
[0, 1, 2, 3, 4, 5, 6] has interior local maxima at positions 2 and 4 with
prominences 5 and 4. -/

theorem scanLeftMin_eq_step (x : List ℚ) (v cur : ℚ) (i j : ℕ) (hij : i = j + 1)
    (hle : x.getD i 0 ≤ v) :
    scanLeftMin x v i cur = scanLeftMin x v j (min cur (x.getD i 0)) := by
  subst hij
  rw [scanLeftMin, if_pos hle]

theorem scanLeftMin_eq_zero {x : List ℚ} {v cur : ℚ} (hle : x.getD 0 0 ≤ v) :
    scanLeftMin x v 0 cur = min cur (x.getD 0 0) := by
  rw [scanLeftMin, if_pos hle]

theorem scanLeftMin_eq_stop (x : List ℚ) (v cur : ℚ) (i j : ℕ) (hij : i = j + 1)
    (hgt : ¬x.getD i 0 ≤ v) :
    scanLeftMin x v i cur = cur := by
  subst hij
  rw [scanLeftMin, if_neg hgt]

theorem scanRightMin_eq_step {x : List ℚ} {v cur : ℚ} {i : ℕ} (h : i < x.length)
    (hle : x.getD i 0 ≤ v) :
    scanRightMin x v i cur = scanRightMin x v (i + 1) (min cur (x.getD i 0)) := by
  rw [scanRightMin, dif_pos h, if_pos hle]

theorem scanRightMin_eq_stop {x : List ℚ} {v cur : ℚ} {i : ℕ} (h : i < x.length)
    (hgt : ¬x.getD i 0 ≤ v) :
    scanRightMin x v i cur = cur := by
  rw [scanRightMin, dif_pos h, if_neg hgt]

theorem scanRightMin_eq_end {x : List ℚ} {v cur : ℚ} {i : ℕ} (h : ¬i < x.length) :
    scanRightMin x v i cur = cur := by
  rw [scanRightMin, dif_neg h]

theorem evalTP_localMaxima : localMaxima [0, 0, 5, 0, 4, 0, 0] = [2, 4] := by
  unfold localMaxima
  rw [localMaximaAux_eq_skip (by norm_num) (by norm_num),
    localMaximaAux_eq_peak (by norm_num) (plateauEnd_eq_stop (by norm_num)) (by norm_num),
    localMaximaAux_eq_peak (by norm_num) (plateauEnd_eq_stop (by norm_num)) (by norm_num),
    localMaximaAux_eq_nil (by norm_num)]

theorem evalTP_height :
    selectByHeight [0, 0, 5, 0, 4, 0, 0] (some (-100)) [2, 4] = [2, 4] := by
  norm_num [selectByHeight, heightPass]

theorem evalTP_priority : ([2, 4].map (([0, 0, 5, 0, 4, 0, 0] : List ℚ).getD · 0)) = [5, 4] := by
  norm_num

theorem evalTP_argsort : argsortAsc [5, 4] = [1, 0] := by
  norm_num [argsortAsc, List.insertionSort, List.orderedInsert, List.range_succ]

theorem evalTP_distance2 : selectByPeakDistance [2, 4] [5, 4] 2 = [2, 4] := by
  unfold selectByPeakDistance
  rw [evalTP_argsort]
  decide

theorem evalTP_distance3 : selectByPeakDistance [2, 4] [5, 4] 3 = [2] := by
  unfold selectByPeakDistance
  rw [evalTP_argsort]
  decide

theorem evalTP_prom2 : promOf [0, 0, 5, 0, 4, 0, 0] 2 = 5 := by
  have hl : scanLeftMin [0, 0, 5, 0, 4, 0, 0] 5 2 5 = 0 := by
    rw [scanLeftMin_eq_step _ _ _ 2 1 rfl (by norm_num),
      scanLeftMin_eq_step _ _ _ 1 0 rfl (by norm_num),
      scanLeftMin_eq_zero (by norm_num)]
    norm_num
  have hr : scanRightMin [0, 0, 5, 0, 4, 0, 0] 5 2 5 = 0 := by
    rw [scanRightMin_eq_step (by norm_num) (by norm_num),
      scanRightMin_eq_step (by norm_num) (by norm_num),
      scanRightMin_eq_step (by norm_num) (by norm_num),
      scanRightMin_eq_step (by norm_num) (by norm_num),
      scanRightMin_eq_step (by norm_num) (by norm_num),
      scanRightMin_eq_end (by norm_num)]
    norm_num
  simp only [promOf]
  norm_num [hl, hr]

theorem evalTP_prom4 : promOf [0, 0, 5, 0, 4, 0, 0] 4 = 4 := by
  have hl : scanLeftMin [0, 0, 5, 0, 4, 0, 0] 4 4 4 = 0 := by
    rw [scanLeftMin_eq_step _ _ _ 4 3 rfl (by norm_num),
      scanLeftMin_eq_step _ _ _ 3 2 rfl (by norm_num),
      scanLeftMin_eq_stop _ _ _ 2 1 rfl (by norm_num)]
    norm_num
  have hr : scanRightMin [0, 0, 5, 0, 4, 0, 0] 4 4 4 = 0 := by
    rw [scanRightMin_eq_step (by norm_num) (by norm_num),
      scanRightMin_eq_step (by norm_num) (by norm_num),
      scanRightMin_eq_step (by norm_num) (by norm_num),
      scanRightMin_eq_end (by norm_num)]
    norm_num
  simp only [promOf]
  norm_num [hl, hr]

/-- find_peaks on the two-peak input with prominence threshold 1 and index
distance 2 keeps both peaks. -/
theorem evalTP_find_peaks_1_2 :
    find_peaks [0, 0, 5, 0, 4, 0, 0] (some (-100)) 1 2 = [(2, 5), (4, 4)] := by
  simp only [find_peaks]
  rw [evalTP_localMaxima, evalTP_height, evalTP_priority, evalTP_distance2]
  rw [List.map_cons, List.map_cons, List.map_nil, evalTP_prom2, evalTP_prom4]
  norm_num [List.filter]

/-- find_peaks on the two-peak input with prominence threshold 9/2 discards the
peak of prominence 4. -/
theorem evalTP_find_peaks_4h_2 :
    find_peaks [0, 0, 5, 0, 4, 0, 0] (some (-100)) (9/2) 2 = [(2, 5)] := by
  simp only [find_peaks]
  rw [evalTP_localMaxima, evalTP_height, evalTP_priority, evalTP_distance2]
  rw [List.map_cons, List.map_cons, List.map_nil, evalTP_prom2, evalTP_prom4]
  norm_num [List.filter]

/-- find_peaks on the two-peak input with index distance 3 (the rounded
threshold) keeps only the higher peak. -/
theorem evalTP_find_peaks_1_3 :
    find_peaks [0, 0, 5, 0, 4, 0, 0] (some (-100)) 1 3 = [(2, 5)] := by
  simp only [find_peaks]
  rw [evalTP_localMaxima, evalTP_height, evalTP_priority, evalTP_distance3]
  rw [List.map_cons, List.map_nil, evalTP_prom2]
  norm_num [List.filter]

theorem evalTP_minDistanceIdx : minDistanceIdx (27/10) 1 = 2 := by
  have h : pyTrunc ((27 : ℚ)/10) = 2 := by norm_num [pyTrunc, Int.floor_eq_iff]
  rw [minDistanceIdx]
  norm_num [h]
  decide

theorem evalTP_roundIdx : minDistanceIdxSpecRound (27/10) 1 = 3 := by
  have h : round ((27 : ℚ)/10) = 3 := by norm_num [round_eq, Int.floor_eq_iff]
  rw [minDistanceIdxSpecRound]
  norm_num [h]
  decide

theorem evalTP_freq_res :
    ([0, 1, 2, 3, 4, 5, 6] : List ℚ).getD 1 0 - ([0, 1, 2, 3, 4, 5, 6] : List ℚ).getD 0 0
      = 1 := by
  norm_num

theorem evalTP_capped_20 :
    detectCapped [0, 1, 2, 3, 4, 5, 6] [0, 0, 5, 0, 4, 0, 0] 1 (27/10) (some (-100)) 20 =
      [(2, 5), (4, 4)] := by
  rw [detectCapped, evalTP_freq_res, evalTP_minDistanceIdx, evalTP_find_peaks_1_2]
  norm_num [capPeaks]

theorem evalTP_capped_high :
    detectCapped [0, 1, 2, 3, 4, 5, 6] [0, 0, 5, 0, 4, 0, 0] (9/2) (27/10) (some (-100))
      20 = [(2, 5)] := by
  rw [detectCapped, evalTP_freq_res, evalTP_minDistanceIdx, evalTP_find_peaks_4h_2]
  norm_num [capPeaks]

theorem evalTP_capped_cap1 :
    detectCapped [0, 1, 2, 3, 4, 5, 6] [0, 0, 5, 0, 4, 0, 0] 1 (27/10) (some (-100)) 1 =
      [(2, 5)] := by
  rw [detectCapped, evalTP_freq_res, evalTP_minDistanceIdx, evalTP_find_peaks_1_2]
  norm_num [capPeaks, sortByPromDesc, sortByIdxAsc, List.insertionSort, List.orderedInsert]

theorem evalTP_cappedRound_20 :
    detectCappedSpecRound [0, 1, 2, 3, 4, 5, 6] [0, 0, 5, 0, 4, 0, 0] 1 (27/10)
      (some (-100)) 20 = [(2, 5)] := by
  rw [detectCappedSpecRound, evalTP_freq_res, evalTP_roundIdx, evalTP_find_peaks_1_3]
  norm_num [capPeaks]

/-- The detector on the two-peak input with the truncated index distance 2
returns both peaks, ranked by ascending position. -/
theorem evalTP_detect_20 :
    detectPeaks [0, 1, 2, 3, 4, 5, 6] [0, 0, 5, 0, 4, 0, 0] 1 (27/10) (some (-100)) 20 =
      some [⟨2, 2, 5, 5, 1⟩, ⟨4, 4, 4, 4, 2⟩] := by
  rw [detectPeaks_some_iff]
  refine ⟨by norm_num, by norm_num, ?_, ?_⟩
  · rw [evalTP_capped_20]
    decide
  · rw [evalTP_capped_20]
    norm_num [buildPeaks, List.enum, List.enumFrom]

theorem evalTP_detect_high :
    detectPeaks [0, 1, 2, 3, 4, 5, 6] [0, 0, 5, 0, 4, 0, 0] (9/2) (27/10) (some (-100))
      20 = some [⟨2, 2, 5, 5, 1⟩] := by
  rw [detectPeaks_some_iff]
  refine ⟨by norm_num, by norm_num, ?_, ?_⟩
  · rw [evalTP_capped_high]
    decide
  · rw [evalTP_capped_high]
    norm_num [buildPeaks, List.enum, List.enumFrom]

theorem evalTP_detect_cap1 :
    detectPeaks [0, 1, 2, 3, 4, 5, 6] [0, 0, 5, 0, 4, 0, 0] 1 (27/10) (some (-100)) 1 =
      some [⟨2, 2, 5, 5, 1⟩] := by
  rw [detectPeaks_some_iff]
  refine ⟨by norm_num, by norm_num, ?_, ?_⟩
  · rw [evalTP_capped_cap1]
    decide
  · rw [evalTP_capped_cap1]
    norm_num [buildPeaks, List.enum, List.enumFrom]

theorem evalTP_detectRound_20 :
    detectPeaksSpecRound [0, 1, 2, 3, 4, 5, 6] [0, 0, 5, 0, 4, 0, 0] 1 (27/10)
      (some (-100)) 20 = some [⟨2, 2, 5, 5, 1⟩] := by
  rw [detectPeaksSpecRound, if_neg (by norm_num), if_neg (by norm_num),
    if_pos (by rw [evalTP_cappedRound_20]; decide), evalTP_cappedRound_20]
  norm_num [buildPeaks, List.enum, List.enumFrom]

/-! ## Evaluation on the flat (zero-peak) input -/

theorem evalFlat_localMaxima : localMaxima [5, 5, 5] = [] := by
  unfold localMaxima
  rw [localMaximaAux_eq_skip (by norm_num) (by norm_num), localMaximaAux_eq_nil (by norm_num)]

theorem evalFlat_find_peaks (d : ℕ) : find_peaks [5, 5, 5] none 6 d = [] := by
  simp only [find_peaks]
  rw [evalFlat_localMaxima]
  rfl

/-- A flat spectrum of length 3 yields a normal result with no peaks and
neutral statistics. -/
theorem evalFlat_detect :
    detect_resonance_peaks [0, 1, 2] [5, 5, 5] 6 10 none 20 =
      .ok ⟨[], ⟨0, (0, 0), 0, 0, (0, 0), 0, 0, none⟩⟩ := by
  have hc : detectCapped [0, 1, 2] [5, 5, 5] 6 10 none 20 = [] := by
    rw [detectCapped, evalFlat_find_peaks]
    rfl
  rw [detect_resonance_peaks_ok_iff]
  refine ⟨by norm_num, by norm_num, ?_, ?_⟩
  · rw [hc]
    rfl
  · rw [hc]
    rfl

/-! ## The detector claims -/

/-- If the images of the members of a list under f are distinct, f is injective
on the members. -/
theorem nodup_map_mem_inj {α β : Type} {f : α → β} :
    ∀ {l : List α}, (l.map f).Nodup → ∀ p ∈ l, ∀ q ∈ l, f p = f q → p = q := by
  intro l
  induction l with
  | nil =>
    intro _ p hp
    simp at hp
  | cons a t ih =>
    intro h p hp q hq hfe
    rw [List.map_cons, List.nodup_cons] at h
    obtain ⟨hna, hnt⟩ := h
    rcases List.mem_cons.mp hp with rfl | hpt
    · rcases List.mem_cons.mp hq with rfl | hqt
      · rfl
      · exact absurd (hfe ▸ List.mem_map_of_mem f hqt) hna
    · rcases List.mem_cons.mp hq with rfl | hqt
      · exact absurd (hfe ▸ List.mem_map_of_mem f hpt) hna
      · exact ih hnt p hpt q hqt hfe

/-- C3 (amended): for every pair of equal-length arrays of length at least 3
whose first two frequencies differ, detect_resonance_peaks returns a result
without throwing.  (The length and zero-spacing conditions are what the code
actually checks by failing: frequencies[1] raises IndexError below length 2 and
a zero frequency step raises at the int() conversion; no mismatched-length or
minimum-length validation exists.) -/
theorem detect_resonance_peaks_no_throw (freqs spl : List ℚ) (mp md : ℚ)
    (mh : Option ℚ) (cap : ℕ) (hlen : freqs.length = spl.length)
    (h3 : 3 ≤ freqs.length) (hres : freqs.getD 1 0 ≠ freqs.getD 0 0) :
    ∃ r, detect_resonance_peaks freqs spl mp md mh cap = .ok r := by
  refine ⟨_, (detect_resonance_peaks_ok_iff freqs spl mp md mh cap _).mpr
    ⟨by omega, sub_ne_zero.mpr hres, ?_, rfl⟩⟩
  rw [List.all_eq_true]
  intro p hp
  rw [decide_eq_true_eq]
  rw [detectCapped] at hp
  have hmem := capPeaks_subset _ _ p hp
  have hb := find_peaks_mem_fst spl mh mp _ p hmem
  omega

/-- Witness for the amended C3 theorem: a flat SPL array over a valid frequency
axis runs to completion. -/
theorem detect_resonance_peaks_no_throw_witness :
    (detect_resonance_peaks [0, 1, 2] [7, 7, 7] 6 10 none 20).toOption.isSome = true := by
  obtain ⟨r, hr⟩ := detect_resonance_peaks_no_throw [0, 1, 2] [7, 7, 7] 6 10 none 20
    (by norm_num) (by norm_num) (by norm_num)
  rw [hr]
  rfl

/-- C3 counterexample: equal-length arrays of length 3 with a constant
frequency axis make the detector raise (the float division min_distance/0
yields an infinity and int() raises OverflowError), refuting the claim that
every pair of equal-length arrays of length at least 3 returns without
throwing. -/
theorem detect_resonance_peaks_throws_on_flat_frequencies :
    detect_resonance_peaks [0, 0, 0] [0, 0, 0] 6 10 none 20 = .error .overflowError := by
  rw [detect_resonance_peaks, if_neg (by norm_num), if_pos (by norm_num)]

/-- C4: for a fixed spectrum, fixed min_distance, explicit min_height and fixed
max_peaks, the number of returned peaks never increases when min_prominence
grows: scipy applies the distance filter before the prominence filter, so the
prominence threshold only filters a fixed candidate list, and the cap takes a
minimum. -/
theorem detect_resonance_peaks_count_antitone (freqs spl : List ℚ) (md mheight : ℚ)
    (cap : ℕ) (p1 p2 : ℚ) (l1 l2 : List ResonancePeak) (hp : p1 ≤ p2)
    (h1 : detectPeaks freqs spl p1 md (some mheight) cap = some l1)
    (h2 : detectPeaks freqs spl p2 md (some mheight) cap = some l2) :
    l2.length ≤ l1.length := by
  obtain ⟨-, -, -, hl1⟩ := (detectPeaks_some_iff freqs spl p1 md (some mheight) cap l1).mp h1
  obtain ⟨-, -, -, hl2⟩ := (detectPeaks_some_iff freqs spl p2 md (some mheight) cap l2).mp h2
  rw [hl1, hl2, buildPeaks_length, buildPeaks_length]
  rw [detectCapped, detectCapped, capPeaks_length, capPeaks_length]
  have hmono := find_peaks_length_antitone spl (some mheight)
    (minDistanceIdx md (freqs.getD 1 0 - freqs.getD 0 0)) hp
  omega

/-- Witness for C4 on the two-peak input: thresholds 1 and 9/2 return 2 and 1
peaks respectively. -/
theorem detect_resonance_peaks_count_antitone_witness :
    ([⟨2, 2, 5, 5, 1⟩] : List ResonancePeak).length ≤
      ([⟨2, 2, 5, 5, 1⟩, ⟨4, 4, 4, 4, 2⟩] : List ResonancePeak).length :=
  detect_resonance_peaks_count_antitone [0, 1, 2, 3, 4, 5, 6] [0, 0, 5, 0, 4, 0, 0]
    (27/10) (-100) 20 1 (9/2) [⟨2, 2, 5, 5, 1⟩, ⟨4, 4, 4, 4, 2⟩] [⟨2, 2, 5, 5, 1⟩]
    (by norm_num) evalTP_detect_20 evalTP_detect_high

/-- C5: the returned peak list never exceeds max_peaks; its positions are
strictly ascending with rank i+1 at position i; frequencies ascend whenever the
frequency axis does; and when the uncapped detection exceeds max_peaks the
result keeps exactly max_peaks pairs, all drawn from the uncapped detection,
each at least as prominent as every pair left out. -/
theorem detect_resonance_peaks_capping (freqs spl : List ℚ) (mp md : ℚ)
    (mh : Option ℚ) (cap : ℕ) (l : List ResonancePeak)
    (h : detectPeaks freqs spl mp md mh cap = some l) :
    l.length ≤ cap ∧
      List.Pairwise (· < ·) (l.map (·.index)) ∧
      (∀ i (hi : i < l.length), (l.get ⟨i, hi⟩).rank = i + 1) ∧
      (List.Pairwise (· < ·) freqs →
        List.Pairwise (· < ·) (l.map (·.center_frequency))) ∧
      (cap < (find_peaks spl mh mp
          (minDistanceIdx md (freqs.getD 1 0 - freqs.getD 0 0))).length →
        l.length = cap ∧
          (∀ p ∈ l, (p.index, p.prominence) ∈ find_peaks spl mh mp
            (minDistanceIdx md (freqs.getD 1 0 - freqs.getD 0 0))) ∧
          (∀ p ∈ l, ∀ q ∈ find_peaks spl mh mp
              (minDistanceIdx md (freqs.getD 1 0 - freqs.getD 0 0)),
            q.1 ∉ l.map (·.index) → q.2 ≤ p.prominence)) := by
  obtain ⟨hlen2, hresne, hall, hl⟩ := (detectPeaks_some_iff freqs spl mp md mh cap l).mp h
  have hfst := find_peaks_fst_pairwise spl mh mp
    (minDistanceIdx md (freqs.getD 1 0 - freqs.getD 0 0))
  subst hl
  refine ⟨?_, ?_, ?_, ?_, ?_⟩
  · rw [buildPeaks_length, detectCapped, capPeaks_length]
    exact min_le_left _ _
  · rw [buildPeaks_map_index, detectCapped]
    exact capPeaks_fst_pairwise cap _ hfst
  · exact fun i hi => buildPeaks_rank freqs spl _ i hi
  · intro hmono
    have hidx : List.Pairwise (· < ·)
        ((buildPeaks freqs spl (detectCapped freqs spl mp md mh cap)).map (·.index)) := by
      rw [buildPeaks_map_index, detectCapped]
      exact capPeaks_fst_pairwise cap _ hfst
    rw [List.pairwise_map] at hidx ⊢
    refine hidx.imp_of_mem ?_
    intro p q hpm hqm hlt
    obtain ⟨hpmem, hpcf, -⟩ := buildPeaks_mem _ _ _ p hpm
    obtain ⟨hqmem, hqcf, -⟩ := buildPeaks_mem _ _ _ q hqm
    have hplt : p.index < freqs.length := by
      simpa using List.all_eq_true.mp hall _ hpmem
    have hqlt : q.index < freqs.length := by
      simpa using List.all_eq_true.mp hall _ hqmem
    have hg := (List.pairwise_iff_getElem.mp hmono) p.index q.index hplt hqlt hlt
    rw [hpcf, hqcf]
    simpa [List.getD_eq_getElem?_getD, List.getElem?_eq_getElem, hplt, hqlt] using hg
  · intro hcap
    refine ⟨?_, ?_, ?_⟩
    · rw [buildPeaks_length, detectCapped, capPeaks_length]
      omega
    · intro p hpm
      obtain ⟨hpmem, -, -⟩ := buildPeaks_mem _ _ _ p hpm
      rw [detectCapped] at hpmem
      exact capPeaks_subset _ _ _ hpmem
    · intro p hpm q hq hqnot
      obtain ⟨hpmem, -, -⟩ := buildPeaks_mem _ _ _ p hpm
      rw [detectCapped] at hpmem
      rw [buildPeaks_map_index, detectCapped] at hqnot
      exact capPeaks_topk cap _ _ hpmem q hq hqnot

/-- Witness for C5: capping the two-peak input to one peak. -/
theorem detect_resonance_peaks_capping_witness :
    ([⟨2, 2, 5, 5, 1⟩] : List ResonancePeak).length ≤ 1 :=
  (detect_resonance_peaks_capping [0, 1, 2, 3, 4, 5, 6] [0, 0, 5, 0, 4, 0, 0] 1 (27/10)
    (some (-100)) 1 [⟨2, 2, 5, 5, 1⟩] evalTP_detect_cap1).1

/-- C6 (amended): over a uniformly spaced frequency axis of positive step res,
any two distinct returned peaks have center frequencies at least
min_distance - res apart.  The index threshold the code uses is
max(1, int(min_distance / res)) with int() truncation, not rounding; the
inequality holds for it as well because truncation loses less than one bin. -/
theorem detect_resonance_peaks_distance_invariant (freqs spl : List ℚ) (mp md : ℚ)
    (mh : Option ℚ) (cap : ℕ) (l : List ResonancePeak)
    (h : detectPeaks freqs spl mp md mh cap = some l)
    (hres : 0 < freqs.getD 1 0 - freqs.getD 0 0)
    (hunif : ∀ i, i + 1 < freqs.length →
      freqs.getD (i + 1) 0 - freqs.getD i 0 = freqs.getD 1 0 - freqs.getD 0 0) :
    ∀ p ∈ l, ∀ q ∈ l, p ≠ q →
      md - (freqs.getD 1 0 - freqs.getD 0 0) ≤
        |p.center_frequency - q.center_frequency| := by
  obtain ⟨hlen2, hresne, hall, hl⟩ := (detectPeaks_some_iff freqs spl mp md mh cap l).mp h
  subst hl
  set res := freqs.getD 1 0 - freqs.getD 0 0 with hresdef
  set d := minDistanceIdx md res with hd
  intro p hp q hq hpq
  obtain ⟨hpmem, hpcf, -⟩ := buildPeaks_mem _ _ _ p hp
  obtain ⟨hqmem, hqcf, -⟩ := buildPeaks_mem _ _ _ q hq
  have hplt : p.index < freqs.length := by
    simpa using List.all_eq_true.mp hall _ hpmem
  have hqlt : q.index < freqs.length := by
    simpa using List.all_eq_true.mp hall _ hqmem
  have hnodup : ((buildPeaks freqs spl
      (detectCapped freqs spl mp md mh cap)).map (·.index)).Nodup := by
    rw [buildPeaks_map_index, detectCapped]
    exact (capPeaks_fst_pairwise cap _ (find_peaks_fst_pairwise spl mh mp d)).imp ne_of_lt
  have hne : p.index ≠ q.index := fun he => hpq (nodup_map_mem_inj hnodup p hp q hq he)
  rw [detectCapped] at hpmem hqmem
  have hpf := capPeaks_subset _ _ _ hpmem
  have hqf := capPeaks_subset _ _ _ hqmem
  have hdist := find_peaks_dist spl mh mp d _ hpf _ hqf (by simpa using hne)
  simp only [Nat.dist] at hdist
  have htel : ∀ k a : ℕ, a + k < freqs.length →
      freqs.getD (a + k) 0 - freqs.getD a 0 = (k : ℚ) * res := by
    intro k
    induction k with
    | zero =>
      intro a _
      simp
    | succ n ih =>
      intro a hk
      have h1 := hunif (a + n) (by omega)
      have h2 := ih a (by omega)
      rw [show a + (n + 1) = (a + n) + 1 by omega]
      push_cast
      linarith
  have habs : ∀ pi qi : ℕ, pi < qi → qi < freqs.length →
      freqs.getD qi 0 - freqs.getD pi 0 = ((qi - pi : ℕ) : ℚ) * res := by
    intro pi qi hij hq
    have := htel (qi - pi) pi (by omega)
    rwa [show pi + (qi - pi) = qi by omega] at this
  have hd_res : md - res ≤ (d : ℚ) * res := by
    rw [hd, minDistanceIdx]
    rcases le_or_lt (pyTrunc (md / res)) 1 with h1 | h1
    · rw [max_eq_left h1, Int.toNat_one]
      rcases le_or_lt md 0 with hmd | hmd
      · push_cast
        nlinarith
      · have hq0 : 0 ≤ md / res := le_of_lt (div_pos hmd hres)
        have hup := lt_pyTrunc_add_one hq0
        have h2 : md / res < 2 := by
          have : ((pyTrunc (md / res) : ℤ) : ℚ) ≤ 1 := by exact_mod_cast h1
          linarith
        have := (div_lt_iff₀ hres).mp h2
        push_cast
        linarith
    · rw [max_eq_right h1.le]
      have hq0 : 0 ≤ md / res := by
        by_contra hneg
        push_neg at hneg
        have hle : pyTrunc (md / res) ≤ 0 := by
          rw [pyTrunc, if_neg (not_le.mpr hneg)]
          have : (0 : ℤ) ≤ ⌊-(md / res)⌋ := Int.floor_nonneg.mpr (by linarith)
          omega
        omega
      have hup := lt_pyTrunc_add_one hq0
      have hcast : (((pyTrunc (md / res)).toNat : ℕ) : ℚ) =
          ((pyTrunc (md / res) : ℤ) : ℚ) := by
        exact_mod_cast congrArg (fun z : ℤ => (z : ℚ))
          (Int.toNat_of_nonneg (show (0 : ℤ) ≤ pyTrunc (md / res) by omega))
      rw [hcast]
      have hmul : (md / res - 1) * res ≤ ((pyTrunc (md / res) : ℤ) : ℚ) * res :=
        mul_le_mul_of_nonneg_right (by linarith) hres.le
      have hms : (md / res - 1) * res = md - res := by
        field_simp
      linarith
  rcases lt_or_gt_of_ne hne with hlt | hgt
  · have he := habs p.index q.index hlt hqlt
    have hcast : (d : ℚ) ≤ ((q.index - p.index : ℕ) : ℚ) := by
      exact_mod_cast show d ≤ q.index - p.index by omega
    have hpos : (0 : ℚ) ≤ freqs.getD q.index 0 - freqs.getD p.index 0 := by
      rw [he]
      positivity
    rw [hpcf, hqcf, abs_sub_comm, abs_of_nonneg hpos, he]
    calc md - res ≤ (d : ℚ) * res := hd_res
      _ ≤ _ := mul_le_mul_of_nonneg_right hcast hres.le
  · have he := habs q.index p.index hgt hplt
    have hcast : (d : ℚ) ≤ ((p.index - q.index : ℕ) : ℚ) := by
      exact_mod_cast show d ≤ p.index - q.index by omega
    have hpos : (0 : ℚ) ≤ freqs.getD p.index 0 - freqs.getD q.index 0 := by
      rw [he]
      positivity
    rw [hpcf, hqcf, abs_of_nonneg hpos, he]
    calc md - res ≤ (d : ℚ) * res := hd_res
      _ ≤ _ := mul_le_mul_of_nonneg_right hcast hres.le

/-- Witness for the amended C6 theorem: the two peaks of the two-peak input are
2 bins apart, at least 27/10 - 1 apart in frequency. -/
theorem detect_resonance_peaks_distance_invariant_witness :
    (27 : ℚ)/10 -
        (([0, 1, 2, 3, 4, 5, 6] : List ℚ).getD 1 0 -
          ([0, 1, 2, 3, 4, 5, 6] : List ℚ).getD 0 0) ≤
      |(⟨2, 2, 5, 5, 1⟩ : ResonancePeak).center_frequency -
        (⟨4, 4, 4, 4, 2⟩ : ResonancePeak).center_frequency| :=
  detect_resonance_peaks_distance_invariant [0, 1, 2, 3, 4, 5, 6] [0, 0, 5, 0, 4, 0, 0]
    1 (27/10) (some (-100)) 20 [⟨2, 2, 5, 5, 1⟩, ⟨4, 4, 4, 4, 2⟩] evalTP_detect_20
    (by norm_num)
    (by
      intro i hi
      norm_num at hi
      have hc : i = 0 ∨ i = 1 ∨ i = 2 ∨ i = 3 ∨ i = 4 ∨ i = 5 := by omega
      rcases hc with rfl | rfl | rfl | rfl | rfl | rfl <;> norm_num)
    ⟨2, 2, 5, 5, 1⟩ (by simp) ⟨4, 4, 4, 4, 2⟩ (by simp)
    (by simp [ResonancePeak.mk.injEq])

/-- C6 counterexample: the detector uses truncation, not rounding, for the
index-distance threshold.  With min_distance 27/10 over a unit-resolution axis
the code uses distance index 2 and keeps two peaks 2 bins apart, while the
spec-worded rounded threshold 3 would suppress the second peak. -/
theorem detect_resonance_peaks_distance_not_round :
    detectPeaks [0, 1, 2, 3, 4, 5, 6] [0, 0, 5, 0, 4, 0, 0] 1 (27/10) (some (-100)) 20 =
        some [⟨2, 2, 5, 5, 1⟩, ⟨4, 4, 4, 4, 2⟩] ∧
      detectPeaksSpecRound [0, 1, 2, 3, 4, 5, 6] [0, 0, 5, 0, 4, 0, 0] 1 (27/10)
        (some (-100)) 20 = some [⟨2, 2, 5, 5, 1⟩] :=
  ⟨evalTP_detect_20, evalTP_detectRound_20⟩

/-- C8: a successful detection with an empty peak list carries the neutral
statistics (zero ranges, zero means and deviations, no dominant peak), and a
nonempty one has a dominant peak that is a member of the list attaining the
maximal peak SPL. -/
theorem detect_resonance_peaks_stats (freqs spl : List ℚ) (mp md : ℚ)
    (mh : Option ℚ) (cap : ℕ) (r : ResonanceDetectionResult)
    (h : detect_resonance_peaks freqs spl mp md mh cap = .ok r) :
    (r.resonance_peaks = [] →
      r.statistics = ⟨0, (0, 0), 0, 0, (0, 0), 0, 0, none⟩) ∧
      (r.resonance_peaks ≠ [] → ∃ p, r.statistics.dominant_peak = some p ∧
        p ∈ r.resonance_peaks ∧ ∀ q ∈ r.resonance_peaks, q.peak_spl ≤ p.peak_spl) := by
  obtain ⟨-, -, -, hr⟩ := (detect_resonance_peaks_ok_iff freqs spl mp md mh cap r).mp h
  subst hr
  constructor
  · intro hempty
    have hb : buildPeaks freqs spl (detectCapped freqs spl mp md mh cap) = [] := hempty
    show mkStats (buildPeaks freqs spl (detectCapped freqs spl mp md mh cap)) = _
    rw [hb]
    rfl
  · intro hne
    have hb : buildPeaks freqs spl (detectCapped freqs spl mp md mh cap) ≠ [] := hne
    cases hh : (buildPeaks freqs spl
        (detectCapped freqs spl mp md mh cap)).argmax (·.peak_spl) with
    | none => exact absurd (List.argmax_eq_none.mp hh) hb
    | some p =>
      have hpargmax : p ∈ (buildPeaks freqs spl
          (detectCapped freqs spl mp md mh cap)).argmax (·.peak_spl) := by
        rw [hh]
        rfl
      refine ⟨p, ?_, List.argmax_mem hpargmax, fun q hq => ?_⟩
      · show (mkStats (buildPeaks freqs spl
          (detectCapped freqs spl mp md mh cap))).dominant_peak = some p
        rw [mkStats, if_neg (fun hc => hb (List.isEmpty_iff.mp hc))]
        exact hh
      · exact List.le_of_mem_argmax hq hpargmax

/-- Witness for C8 at the flat input: the run succeeds with no peaks and the
neutral statistics. -/
theorem detect_resonance_peaks_stats_witness :
    ({ resonance_peaks := [],
       statistics := ⟨0, (0, 0), 0, 0, (0, 0), 0, 0, none⟩ } :
        ResonanceDetectionResult).statistics = ⟨0, (0, 0), 0, 0, (0, 0), 0, 0, none⟩ :=
  (detect_resonance_peaks_stats [0, 1, 2] [5, 5, 5] 6 10 none 20 _ evalFlat_detect).1 rfl

end Soundwave
